import Mathlib

/-!
Verification of the replay ingestion and record resolution engine.

The development shallowly embeds the SQLite-backed record store (`db.py`),
the record manager (`record_manager.py`) and the directory watcher
(`watcher.py`).  Tables are association lists kept in insertion order
(SQLite rowid order); SQL `NULL` is `Option.none`; Python dicts become
structures.  The external replay decoder (`sc_replay_parser`, not part of
this repository) is an opaque input: its structured summary is a parameter
of the ingestion functions.  `REAL` columns (`duration_seconds`, `apm`) are
carried opaquely as `Option Int` / `Int`: the code stores them and never
computes with them, so their numeric type is irrelevant to every property
proved here.
-/

namespace StarRecord

/-- Split a character list on a separator (as Python `str.split`). -/
def splitOnChar (sep : Char) : List Char → List (List Char)
  | [] => [[]]
  | c :: rest =>
    let r := splitOnChar sep rest
    if c == sep then [] :: r
    else
      match r with
      | seg :: segs => (c :: seg) :: segs
      | [] => [[c]]

/-- Final path component, as Python `pathlib.Path.name` (POSIX separators,
paths without trailing separators — the shape filesystem events carry). -/
def basename (p : String) : String :=
  match (splitOnChar '/' p.data).getLast? with
  | some s => String.mk s
  | none => p

/-- Index of the last `'.'` in a list of characters, if any. -/
def lastDot : List Char → Option Nat
  | [] => none
  | c :: rest =>
    match lastDot rest with
    | some i => some (i + 1)
    | none => if c == '.' then some 0 else none

/-- Python `pathlib.Path.suffix`: the extension of the final component;
empty when the name has no interior dot. -/
def pathSuffix (p : String) : String :=
  let name := (basename p).data
  match lastDot name with
  | some i => if 0 < i && i + 1 < name.length then String.mk (name.drop i) else ""
  | none => ""

/-- `path.suffix.lower()` from `watcher.py`. -/
def suffixLower (p : String) : String :=
  String.mk ((pathSuffix p).data.map Char.toLower)

/-! ## Record store rows (`db.py` schema) -/

/-- Row of the `players` table. -/
structure PlayerRow where
  id : Nat
  name : String
  is_me : Bool
  deriving Repr, DecidableEq

/-- Row of the `aliases` table. -/
structure AliasRow where
  player_id : Nat
  alt_name : String
  deriving Repr, DecidableEq

/-- The column set of the `games` table apart from the generated `id`
(the dict produced by `RecordManager._build_game_data`). -/
structure GameData where
  replay_file : String
  played_at : Option String
  duration_seconds : Option Int
  duration_text : Option String
  map_name : Option String
  map_tileset : Option String
  game_type : Option String
  winner_name : Option String
  loser_name : Option String
  winner_race : Option String
  loser_race : Option String
  my_result : Option String
  deriving Repr, DecidableEq

/-- Row of the `games` table. -/
structure GameRow where
  id : Nat
  data : GameData
  deriving Repr, DecidableEq

/-- Row of the `game_players` table. -/
structure GamePlayerRow where
  game_id : Nat
  player_id : Nat
  race : Option String
  is_winner : Bool
  apm : Int
  deriving Repr, DecidableEq

/-- Row of the `chat_messages` table. -/
structure ChatRow where
  game_id : Nat
  player_id : Nat
  message : String
  game_time : String
  frame : Int
  deriving Repr, DecidableEq

/-- The whole database; lists are in rowid (insertion) order, and the
`next_*` counters model the AUTOINCREMENT id generators. -/
structure DBState where
  players : List PlayerRow
  aliases : List AliasRow
  games : List GameRow
  game_players : List GamePlayerRow
  chat_messages : List ChatRow
  next_player_id : Nat
  next_game_id : Nat
  deriving Repr, DecidableEq

/-- A freshly initialised database (ids start at 1, as SQLite rowids do). -/
def emptyDB : DBState := ⟨[], [], [], [], [], 1, 1⟩

/-! ## Record store operations (`db.py`) -/

/-- `Database.get_or_create_player`: exact name match on `players`, then an
`aliases` lookup, then insertion of a fresh player row. -/
def getOrCreatePlayer (s : DBState) (name : String) : Nat × DBState :=
  match s.players.find? (fun p => p.name == name) with
  | some p => (p.id, s)
  | none =>
    match s.aliases.find? (fun a => a.alt_name == name) with
    | some a => (a.player_id, s)
    | none =>
      let pid := s.next_player_id
      (pid, { s with players := s.players ++ [⟨pid, name, false⟩],
                     next_player_id := pid + 1 })

/-- `Database.set_player_is_me`: `UPDATE players SET is_me = ? WHERE name = ?`. -/
def setPlayerIsMe (s : DBState) (name : String) (flag : Bool) : DBState :=
  { s with players :=
      s.players.map (fun p => if p.name == name then { p with is_me := flag } else p) }

/-- `Database.get_my_names`: names of players with `is_me = 1`, table order. -/
def getMyNames (s : DBState) : List String :=
  (s.players.filter (fun p => p.is_me)).map (fun p => p.name)

/-- `Database.add_alias`: resolve-or-create the canonical player, then
`INSERT OR IGNORE` the alias row (unique `alt_name`). -/
def addAlias (s : DBState) (player_name alt_name : String) : DBState :=
  let r := getOrCreatePlayer s player_name
  let s1 := r.2
  if s1.aliases.any (fun a => a.alt_name == alt_name) then s1
  else { s1 with aliases := s1.aliases ++ [⟨r.1, alt_name⟩] }

/-- `Database.resolve_player_name`: single `aliases ⋈ players` lookup;
pass-through when the name is not an alt-name. -/
def resolvePlayerName (s : DBState) (name : String) : String :=
  match s.aliases.find? (fun a => a.alt_name == name) with
  | some a =>
    match s.players.find? (fun p => p.id == a.player_id) with
    | some p => p.name
    | none => name
  | none => name

/-- `Database.game_exists`. -/
def gameExists (s : DBState) (rf : String) : Bool :=
  s.games.any (fun g => g.data.replay_file == rf)

/-- Number of `games` rows carrying a given `replay_file`. -/
def countGame (s : DBState) (rf : String) : Nat :=
  s.games.countP (fun g => g.data.replay_file == rf)

/-- `Database.insert_game` (success path; callers guard with `game_exists`,
so the UNIQUE violation branch is unreachable in the flows modelled here). -/
def insertGame (s : DBState) (gd : GameData) : Nat × DBState :=
  let gid := s.next_game_id
  (gid, { s with games := s.games ++ [⟨gid, gd⟩], next_game_id := gid + 1 })

/-- `Database.insert_game_player`. -/
def insertGamePlayer (s : DBState) (game_id player_id : Nat)
    (race : Option String) (is_winner : Bool) (apm : Int) : DBState :=
  { s with game_players := s.game_players ++ [⟨game_id, player_id, race, is_winner, apm⟩] }

/-- `Database.insert_chat_message`. -/
def insertChatMessage (s : DBState) (game_id player_id : Nat)
    (message game_time : String) (frame : Int) : DBState :=
  { s with chat_messages := s.chat_messages ++ [⟨game_id, player_id, message, game_time, frame⟩] }

/-! ## SQL ordering

`ORDER BY played_at DESC` in SQLite: `NULL` collates below every `TEXT`
value, so a descending sort puts `NULL`s last.  Tie order is not fixed by
SQL; the model uses a stable sort, and no claim depends on tie order. -/

/-- SQLite ascending order on a nullable TEXT column: `NULL` first. -/
def optLe : Option String → Option String → Prop
  | none, _ => True
  | some _, none => False
  | some a, some b => a ≤ b

instance : DecidableRel optLe := fun a b => by
  cases a <;> cases b <;> simp only [optLe] <;> infer_instance

/-- `g1` precedes `g2` in an `ORDER BY played_at DESC` scan. -/
def gameDesc (g1 g2 : GameRow) : Prop := optLe g2.data.played_at g1.data.played_at

instance : DecidableRel gameDesc := fun g1 g2 =>
  inferInstanceAs (Decidable (optLe g2.data.played_at g1.data.played_at))

instance : IsTotal GameRow gameDesc := by
  constructor
  intro a b
  show optLe b.data.played_at a.data.played_at ∨ optLe a.data.played_at b.data.played_at
  cases b.data.played_at <;> cases a.data.played_at <;> simp only [optLe] <;>
    first
      | exact Or.inl trivial
      | exact Or.inr trivial
      | exact le_total _ _

instance : IsTrans GameRow gameDesc := by
  constructor
  intro a b c h1 h2
  have h1' : optLe b.data.played_at a.data.played_at := h1
  have h2' : optLe c.data.played_at b.data.played_at := h2
  show optLe c.data.played_at a.data.played_at
  cases hc : c.data.played_at with
  | none => exact trivial
  | some z =>
    rw [hc] at h2'
    cases hb : b.data.played_at with
    | none => rw [hb] at h2'; exact absurd h2' (by simp [optLe])
    | some y =>
      rw [hb] at h1' h2'
      cases ha : a.data.played_at with
      | none => rw [ha] at h1'; exact absurd h1' (by simp [optLe])
      | some x =>
        rw [ha] at h1'
        exact le_trans h2' h1'

/-- The row order produced by `SELECT * FROM games ... ORDER BY played_at DESC`. -/
def sortGamesDesc (l : List GameRow) : List GameRow := List.insertionSort gameDesc l

/-! ## Aggregation queries (`db.py`) -/

/-- Python `name in my_names` for a nullable column (`None in s` is `False`). -/
def inMyNames (my : List String) : Option String → Bool
  | some n => my.contains n
  | none => false

/-- Winner branch test of `get_record_vs`:
`game["winner_name"] in my_names and game["loser_name"] == resolved`. -/
def winFor (my : List String) (resolved : String) (g : GameRow) : Bool :=
  inMyNames my g.data.winner_name && (g.data.loser_name == some resolved)

/-- Loser branch test of `get_record_vs`:
`game["loser_name"] in my_names and game["winner_name"] == resolved`. -/
def lossFor (my : List String) (resolved : String) (g : GameRow) : Bool :=
  inMyNames my g.data.loser_name && (g.data.winner_name == some resolved)

/-- The `WHERE winner_name = ? OR loser_name = ?` selection
(SQL `NULL` compares unequal to every value). -/
def vsSelect (resolved : String) (g : GameRow) : Bool :=
  g.data.winner_name == some resolved || g.data.loser_name == some resolved

/-- Result shape of `Database.get_record_vs`; each returned game row carries
the `vs_result` tag the loop attaches to it. -/
structure RecordVs where
  opponent : String
  wins : Nat
  losses : Nat
  total : Nat
  games : List (GameRow × String)
  deriving Repr, DecidableEq

/-- Loop body of `get_record_vs` (if / elif / else over one row). -/
def vsStep (my : List String) (resolved : String)
    (acc : Nat × Nat × List (GameRow × String)) (g : GameRow) :
    Nat × Nat × List (GameRow × String) :=
  if winFor my resolved g then (acc.1 + 1, acc.2.1, acc.2.2 ++ [(g, "win")])
  else if lossFor my resolved g then (acc.1, acc.2.1 + 1, acc.2.2 ++ [(g, "loss")])
  else (acc.1, acc.2.1, acc.2.2 ++ [(g, "unknown")])

/-- `Database.get_record_vs`: resolve the alias, select the resolved name's
games ordered by `played_at DESC`, then classify each row. -/
def getRecordVs (s : DBState) (opponent_name : String) : RecordVs :=
  let resolved := resolvePlayerName s opponent_name
  let rows := sortGamesDesc (s.games.filter (vsSelect resolved))
  let my := getMyNames s
  let acc := rows.foldl (vsStep my resolved) (0, 0, [])
  ⟨resolved, acc.1, acc.2.1, acc.1 + acc.2.1, acc.2.2⟩

/-- Python truthiness of a nullable TEXT value (`None` and `""` are falsy). -/
def truthy : Option String → Bool
  | some n => !(n == "")
  | none => false

/-- Opponent determination of the `get_all_opponents` loop: `some (name, true)`
when the local side won against `name`, `some (name, false)` when it lost,
`none` when the row is skipped (`continue`). -/
def opponentOf (my : List String) (g : GameRow) : Option (String × Bool) :=
  if inMyNames my g.data.winner_name && truthy g.data.loser_name
      && !(inMyNames my g.data.loser_name) then
    g.data.loser_name.map (fun l => (l, true))
  else if inMyNames my g.data.loser_name && truthy g.data.winner_name
      && !(inMyNames my g.data.winner_name) then
    g.data.winner_name.map (fun w => (w, false))
  else none

/-- Per-opponent accumulator of `get_all_opponents` (`stats[opponent]`). -/
structure OppStat where
  wins : Nat
  losses : Nat
  last_played : Option String
  deriving Repr, DecidableEq

/-- One accumulation step on a stats entry: bump the win or loss counter,
then set `last_played` on first opportunity (`if ... is None`). -/
def bump (st : OppStat) (isWin : Bool) (played : Option String) : OppStat :=
  let st1 := if isWin then { st with wins := st.wins + 1 }
             else { st with losses := st.losses + 1 }
  if st1.last_played = none then { st1 with last_played := played } else st1

/-- Update the insertion-ordered `stats` dict at key `opp`
(creating the `{0, 0, None}` entry when absent, as the Python loop does). -/
def updateStats : List (String × OppStat) → String → Bool → Option String →
    List (String × OppStat)
  | [], opp, isWin, played => [(opp, bump ⟨0, 0, none⟩ isWin played)]
  | (k, st) :: rest, opp, isWin, played =>
    if k = opp then (k, bump st isWin played) :: rest
    else (k, st) :: updateStats rest opp isWin played

/-- The `stats` dict after folding the scan (`for row in rows`). -/
def foldStats (my : List String) (acc : List (String × OppStat)) (rows : List GameRow) :
    List (String × OppStat) :=
  rows.foldl (fun acc g =>
    match opponentOf my g with
    | some p => updateStats acc p.1 p.2 g.data.played_at
    | none => acc) acc

/-- One element of the `get_all_opponents` result list. -/
structure OppSummary where
  opponent : String
  wins : Nat
  losses : Nat
  total : Nat
  last_played : Option String
  deriving Repr, DecidableEq

/-- Key order used by Python `sorted(stats.items())` (keys are distinct). -/
def pairLe (p q : String × OppStat) : Prop := p.1 ≤ q.1

instance : DecidableRel pairLe := fun p q => inferInstanceAs (Decidable (p.1 ≤ q.1))

instance : IsTotal (String × OppStat) pairLe := ⟨fun a b => le_total a.1 b.1⟩

instance : IsTrans (String × OppStat) pairLe := ⟨fun _ _ _ h1 h2 => le_trans h1 h2⟩

/-- `Database.get_all_opponents`: empty when no local names exist; otherwise
scan all games in `played_at DESC` order, accumulate per-opponent stats and
emit them sorted by opponent name ascending. -/
def getAllOpponents (s : DBState) : List OppSummary :=
  let my := getMyNames s
  if my.isEmpty then []
  else
    let rows := sortGamesDesc s.games
    let stats := foldStats my [] rows
    (List.insertionSort pairLe stats).map
      (fun p => ⟨p.1, p.2.wins, p.2.losses, p.2.wins + p.2.losses, p.2.last_played⟩)

/-! ## Appearance counts (`get_player_name_counts`) -/

/-- Non-NULL winner names, scan order (`WHERE winner_name IS NOT NULL`). -/
def winnerNames (s : DBState) : List String :=
  s.games.filterMap (fun g => g.data.winner_name)

/-- Non-NULL loser names, scan order. -/
def loserNames (s : DBState) : List String :=
  s.games.filterMap (fun g => g.data.loser_name)

/-- Distinct elements keeping first occurrences. -/
def dedupFirst : List String → List String
  | [] => []
  | n :: rest => n :: (dedupFirst rest).filter (fun m => !(m == n))

/-- One `GROUP BY name / COUNT(*)` arm of the query.  SQL fixes no group
order; the model lists groups in first-occurrence order (the final
`ORDER BY count DESC` makes the choice irrelevant up to count ties, on
which no claim depends). -/
def groupByCount (names : List String) : List (String × Nat) :=
  (dedupFirst names).map (fun n => (n, names.count n))

/-- The `ORDER BY count DESC` ordering on `(name, count)` rows. -/
def countGe (p q : String × Nat) : Prop := q.2 ≤ p.2

instance : DecidableRel countGe := fun p q => inferInstanceAs (Decidable (q.2 ≤ p.2))

instance : IsTotal (String × Nat) countGe := ⟨fun a b => le_total b.2 a.2⟩

instance : IsTrans (String × Nat) countGe := ⟨fun _ _ _ h1 h2 => le_trans h2 h1⟩

/-- `Database.get_player_name_counts`: the winner-name groups and the
loser-name groups, concatenated by `UNION ALL`, then sorted by count
descending.  Note the two arms are *not* merged per name. -/
def getPlayerNameCounts (s : DBState) : List (String × Nat) :=
  List.insertionSort countGe (groupByCount (winnerNames s) ++ groupByCount (loserNames s))

/-! ## Decoder output (`sc_replay_parser`, external dependency)

The decoder is outside this repository; its structured summary is the
fields `record_manager.py` actually reads from `parser`. -/

/-- One entry of `parser.players`. -/
structure DecodedPlayer where
  pid : Nat
  name : String
  race : Option String
  deriving Repr, DecidableEq

/-- One entry of `parser.chat_messages`. -/
structure DecodedChat where
  player_name : String
  message : String
  time : String
  frame : Int
  deriving Repr, DecidableEq

/-- The decoder summary: `parser.game_info` fields read by the manager,
`parser.map_data`, `parser.players`, `parser.player_stats` (an association
from decoder player id to an optional `apm` value) and the chat list. -/
structure DecodedReplay where
  winner : Option String
  loser : Option String
  duration_seconds : Option Int
  duration : Option String
  actual_duration : Option String
  game_type : Option String
  map_name : Option String
  tileset : Option String
  players : List DecodedPlayer
  player_stats : List (Nat × Option Int)
  chat_messages : List DecodedChat
  deriving Repr, DecidableEq

/-- `gi.get("duration") or gi.get("actual_duration")` — Python `or` takes the
second operand when the first is falsy (here: `None` or `""`). -/
def pyOr (a b : Option String) : Option String :=
  if truthy a then a else b

/-- Apm lookup of `_save_players`:
`stats[pid].get("apm", 0.0)` when `pid in stats`, else `0.0`. -/
def lookupApm (pr : DecodedReplay) (pid : Nat) : Int :=
  match pr.player_stats.find? (fun q => q.1 == pid) with
  | some q => q.2.getD 0
  | none => 0

/-! ## Record manager (`record_manager.py`) -/

/-- `RecordManager` state: the database plus the in-memory seed name set
(`self._my_names`). -/
structure RecordManager where
  db : DBState
  my_names_mem : List String
  deriving Repr, DecidableEq

/-- The `my_names` property: in-memory seed united with the stored
`is_me = 1` names (membership in the list is membership in the union). -/
def rmNames (rm : RecordManager) : List String :=
  rm.my_names_mem ++ getMyNames rm.db

/-- Shape test for the `DATE_PATTERN` token
`(\d{4}-\d{2}-\d{2})@(\d{6})` at the head of a character list
(`\d` modelled as an ASCII digit). -/
def tokenShape (cs : List Char) : Bool :=
  match cs with
  | [a, b, c, d, h1, e, f, h2, g, i, m, t1, t2, t3, t4, t5, t6] =>
    a.isDigit && b.isDigit && c.isDigit && d.isDigit && h1 == '-' &&
    e.isDigit && f.isDigit && h2 == '-' && g.isDigit && i.isDigit &&
    m == '@' && t1.isDigit && t2.isDigit && t3.isDigit && t4.isDigit &&
    t5.isDigit && t6.isDigit
  | _ => false

/-- Try the token at the head; on success return the two captured groups
(`date_str`, `time_str`). -/
def matchDateAt (cs : List Char) : Option (String × String) :=
  if tokenShape (cs.take 17) then
    some (String.mk (cs.take 10), String.mk ((cs.drop 11).take 6))
  else none

/-- Leftmost match of the token, as `re.search`. -/
def searchDate : List Char → Option (String × String)
  | [] => none
  | c :: rest =>
    match matchDateAt (c :: rest) with
    | some r => some r
    | none => searchDate rest

/-- `RecordManager._extract_datetime`: '2026-02-07@020624' →
'2026-02-07 02:06:24', `None` when the filename has no token. -/
def extractDatetime (filename : String) : Option String :=
  match searchDate filename.data with
  | none => none
  | some (dateStr, timeStr) =>
    let t := timeStr.data
    some (dateStr ++ " " ++ String.mk (t.take 2) ++ ":" ++
          String.mk ((t.drop 2).take 2) ++ ":" ++ String.mk ((t.drop 4).take 2))

/-- `RecordManager._determine_my_result`. -/
def determineMyResult (my : List String) (winner loser : Option String) : String :=
  if my.isEmpty then "unknown"
  else if inMyNames my winner then "win"
  else if inMyNames my loser then "loss"
  else "unknown"

/-- Race scan of `_build_game_data`: an if/elif pass over `parser.players`
(later matches overwrite earlier ones — there is no `break`). -/
def raceScan (winner loser : Option String) (players : List DecodedPlayer) :
    Option String × Option String :=
  players.foldl (fun acc p =>
    if winner == some p.name then (p.race, acc.2)
    else if loser == some p.name then (acc.1, p.race)
    else acc) (none, none)

/-- `RecordManager._build_game_data`. -/
def buildGameData (pr : DecodedReplay) (replay_file : String) (my : List String) :
    GameData :=
  let played_at := extractDatetime replay_file
  let races := raceScan pr.winner pr.loser pr.players
  { replay_file := replay_file
    played_at := played_at
    duration_seconds := pr.duration_seconds
    duration_text := pyOr pr.duration pr.actual_duration
    map_name := pr.map_name
    map_tileset := pr.tileset
    game_type := pr.game_type
    winner_name := pr.winner
    loser_name := pr.loser
    winner_race := races.1
    loser_race := races.2
    my_result := determineMyResult my pr.winner pr.loser }

/-- The sequence of database units of work issued by a successful
`process_replay` after the dedup check: the `insert_game` commit, then per
participant a `get_or_create_player` commit and an `insert_game_player`
commit, then per chat line a `get_or_create_player` commit and an
`insert_chat_message` commit.  Each list element is one `_connect`
transaction; `gid` is the game rowid returned by the first unit. -/
def ingestUnits (rm : RecordManager) (pr : DecodedReplay) (replay_file : String) :
    List (DBState → DBState) :=
  let gd := buildGameData pr replay_file (rmNames rm)
  let gid := rm.db.next_game_id
  ((fun s => (insertGame s gd).2)
    :: pr.players.flatMap (fun p =>
        [fun s => (getOrCreatePlayer s p.name).2,
         fun s => insertGamePlayer s gid (getOrCreatePlayer s p.name).1 p.race
                    (pr.winner == some p.name) (lookupApm pr p.pid)]))
  ++ pr.chat_messages.flatMap (fun msg =>
        [fun s => (getOrCreatePlayer s msg.player_name).2,
         fun s => insertChatMessage s gid (getOrCreatePlayer s msg.player_name).1
                    msg.message msg.time msg.frame])

/-- Run a prefix of the unit list (`k` committed transactions). -/
def applyUnits (units : List (DBState → DBState)) (s : DBState) : DBState :=
  units.foldl (fun s u => u s) s

/-- `RecordManager.process_replay`.  The decode step is the external
decoder's output for this path: `none` models a decoder exception (caught
and logged, surfacing as a skip). -/
def processReplay (rm : RecordManager) (path : String) (decoded : Option DecodedReplay) :
    Option GameData × RecordManager :=
  let replay_file := basename path
  if gameExists rm.db replay_file then (none, rm)
  else
    match decoded with
    | none => (none, rm)
    | some pr =>
      let gd := buildGameData pr replay_file (rmNames rm)
      (some gd, { rm with db := applyUnits (ingestUnits rm pr replay_file) rm.db })

/-- Second-rank tie test of `detect_my_name`
(`len(counts) >= 2 and best_count <= second_count`). -/
def secondTies (best_count : Nat) : List (String × Nat) → Bool
  | (_, c2) :: _ => best_count ≤ c2
  | [] => false

/-- `RecordManager.detect_my_name`: empty counts → `None`; an already
registered local name wins; a top-two count tie → `None`; otherwise mark
the top name and return it. -/
def detectMyName (rm : RecordManager) : Option String × RecordManager :=
  match getPlayerNameCounts rm.db with
  | [] => (none, rm)
  | (best_name, best_count) :: rest =>
    match getMyNames rm.db with
    | e :: _ => (some e, rm)
    | [] =>
      if secondTies best_count rest then (none, rm)
      else (some best_name,
        { rm with db := setPlayerIsMe rm.db best_name true,
                  my_names_mem := rm.my_names_mem ++ [best_name] })

/-! ## Watcher (`watcher.py`) -/

/-- One filesystem event as `ReplayHandler` sees it: the path, the
directory flag, the size observed after the settle wait, and whether the
consumer callback would raise. -/
structure WEvent where
  src_path : String
  is_directory : Bool
  size_zero : Bool
  cb_fails : Bool
  deriving Repr, DecidableEq

/-- `ReplayHandler` event handling (`on_created` / `on_modified` guard plus
`_handle`): returns the new processed-set and whether the callback was
invoked.  The callback's own failure is caught inside `_handle`, after the
name has been added, so it affects neither component. -/
def handleEvent (processed : List String) (e : WEvent) : List String × Bool :=
  if e.is_directory then (processed, false)
  else if !(suffixLower e.src_path == ".rep") then (processed, false)
  else if processed.contains (basename e.src_path) then (processed, false)
  else if e.size_zero then (processed, false)
  else (processed ++ [basename e.src_path], true)

/-- Run the handler over an event sequence; returns the final processed-set
and the sub-sequence of events whose callback was invoked. -/
def runWatcher (processed : List String) : List WEvent → List String × List WEvent
  | [] => (processed, [])
  | e :: rest =>
    let r := handleEvent processed e
    let rec_ := runWatcher r.1 rest
    (rec_.1, (if r.2 then [e] else []) ++ rec_.2)

/-! ## Concrete fixtures -/

/-- Game row fixture with the fields the aggregation claims read. -/
def mkGame (i : Nat) (rf : String) (w l : Option String) (pa : Option String) : GameRow :=
  ⟨i, ⟨rf, pa, none, none, none, none, none, w, l, none, none, none⟩⟩

/-- Two games between the same two names with the roles swapped. -/
def dbSwap : DBState :=
  ⟨[], [],
   [mkGame 1 "g1.rep" (some "A") (some "B") (some "2026-01-01 10:00:00"),
    mkGame 2 "g2.rep" (some "B") (some "A") (some "2026-01-02 10:00:00")],
   [], [], 1, 3⟩

/-- A store whose only content is one player already marked local. -/
def rmLocalOnly : RecordManager :=
  ⟨⟨[⟨1, "Alice", true⟩], [], [], [], [], 2, 1⟩, []⟩


/-- A store with two games won by `Alice`, used to drive the inference
branch of the amended C3 claim. -/
def rmInferW : RecordManager :=
  ⟨⟨[], [],
    [mkGame 1 "a.rep" (some "Alice") (some "Bob") none,
     mkGame 2 "b.rep" (some "Alice") (some "Carol") none],
    [], [], 1, 3⟩, []⟩

/-- Decoded summary fixture for the ingestion witnesses. -/
def decodedW : DecodedReplay :=
  { winner := some "Alice", loser := some "Bob",
    duration_seconds := some 300, duration := some "05:00", actual_duration := none,
    game_type := some "Top vs Bottom", map_name := some "Fighting Spirit",
    tileset := some "Jungle",
    players := [⟨0, "Alice", some "Terran"⟩, ⟨1, "Bob", some "Zerg"⟩],
    player_stats := [(0, some 120), (1, some 95)],
    chat_messages := [⟨"Alice", "gg", "0:01", 24⟩] }

/-- A record manager over a fresh store. -/
def rmEmpty : RecordManager := ⟨emptyDB, []⟩

/-- First-ingest result used by the C5 and C9 witnesses. -/
def rmIngested : RecordManager := (processReplay rmEmpty "dir1/x.rep" (some decodedW)).2

/-- The `'YYYY-MM-DD HH:MM:SS'` rendering of a token starting a character
list: the date group, a space, and the six time digits split `HH:MM:SS`. -/
def formatToken (cs : List Char) : String :=
  String.mk (cs.take 10) ++ " " ++ String.mk ((cs.drop 11).take 2) ++ ":" ++
  String.mk ((cs.drop 13).take 2) ++ ":" ++ String.mk ((cs.drop 15).take 2)

/-- Classification of one selected game from the local-user perspective
(the if/elif/else of the `get_record_vs` loop). -/
def vsTag (my : List String) (resolved : String) (g : GameRow) : String :=
  if winFor my resolved g then "win"
  else if lossFor my resolved g then "loss"
  else "unknown"

/-- Association-list lookup on the `stats` dict. -/
def lookupStat : List (String × OppStat) → String → Option OppStat
  | [], _ => none
  | (k, st) :: rest, opp => if k = opp then some st else lookupStat rest opp

/-- Does this game row contribute to opponent `opp`? -/
def isOppRow (my : List String) (opp : String) (g : GameRow) : Bool :=
  match opponentOf my g with
  | some p => p.1 == opp
  | none => false

/-- The contributions (win flag, played-at) a scan makes to opponent `opp`,
in scan order. -/
def occsOf (my : List String) (opp : String) (rows : List GameRow) :
    List (Bool × Option String) :=
  rows.filterMap (fun g =>
    match opponentOf my g with
    | some p => if p.1 = opp then some (p.2, g.data.played_at) else none
    | none => none)

/-- Apply one contribution to a stats entry. -/
def applyOcc (st : OppStat) (o : Bool × Option String) : OppStat := bump st o.1 o.2

/-- Apply contributions to an optional stats entry, creating the zero entry
on the first contribution (exactly as the loop does). -/
def applyOccs : Option OppStat → List (Bool × Option String) → Option OppStat
  | st?, [] => st?
  | st?, o :: os => applyOccs (some (applyOcc (st?.getD ⟨0, 0, none⟩) o)) os

/-- First non-`none` element of a list of optional values. -/
def firstSome : List (Option String) → Option String
  | [] => none
  | some x :: _ => some x
  | none :: rest => firstSome rest

/-- The stats entry an opponent ends with, given its contribution list. -/
def statOfOccs (os : List (Bool × Option String)) : OppStat :=
  ⟨os.countP (fun o => o.1), os.countP (fun o => !o.1), firstSome (os.map Prod.snd)⟩

end StarRecord

namespace StarRecord

theorem optLe_total (a b : Option String) : optLe a b ∨ optLe b a := by
  cases a <;> cases b <;> simp only [optLe] <;> try trivial
  exact le_total _ _

theorem optLe_trans {a b c : Option String} (h1 : optLe a b) (h2 : optLe b c) : optLe a c := by
  rcases a with _ | x
  · exact trivial
  · rcases b with _ | y
    · exact absurd h1 (by simp [optLe])
    · rcases c with _ | z
      · exact absurd h2 (by simp [optLe])
      · exact le_trans (show x ≤ y from h1) (show y ≤ z from h2)

theorem optLe_none_right {a : Option String} (h : optLe a none) : a = none := by
  rcases a with _ | x
  · rfl
  · exact absurd h (by simp [optLe])

/-- Claim C1, counterexample: starting from an empty store, `addAlias A B`
then `addAlias B C` makes `resolveName C` return `A` — the claim asserts it
never does. -/
theorem c1_counterexample :
    resolvePlayerName (addAlias (addAlias emptyDB "A" "B") "B" "C") "C" = "A"
    ∧ resolvePlayerName (addAlias emptyDB "A" "B") "B" = "A" := by decide

/-- Claim C1, amended: aliasing `B` to `A` makes `B` resolve to `A`, and a
subsequent `addAlias B C` resolves `B` through players-then-aliases before
inserting, registering `C` directly under `A`'s canonical entry: `C` then
resolves to `A`.  The stored relation stays single-hop (the chain is
collapsed at insertion time), but resolution of `C` does reach `A`. -/
theorem c1_amended_alias_collapse (a b c : String) :
    resolvePlayerName (addAlias emptyDB a b) b = a
    ∧ resolvePlayerName (addAlias (addAlias emptyDB a b) b c) c = a := by
  have h1 : addAlias emptyDB a b =
      ⟨[⟨1, a, false⟩], [⟨1, b⟩], [], [], [], 2, 1⟩ := by
    simp [addAlias, getOrCreatePlayer, emptyDB]
  have hres1 : resolvePlayerName ⟨[⟨1, a, false⟩], [⟨1, b⟩], [], [], [], 2, 1⟩ b = a := by
    simp [resolvePlayerName]
  have hg : getOrCreatePlayer ⟨[⟨1, a, false⟩], [⟨1, b⟩], [], [], [], 2, 1⟩ b =
      (1, ⟨[⟨1, a, false⟩], [⟨1, b⟩], [], [], [], 2, 1⟩) := by
    by_cases hab : a = b
    · subst hab; simp [getOrCreatePlayer]
    · simp [getOrCreatePlayer, hab]
  refine ⟨h1 ▸ hres1, ?_⟩
  rw [h1]
  by_cases hbc : b = c
  · subst hbc
    have : addAlias ⟨[⟨1, a, false⟩], [⟨1, b⟩], [], [], [], 2, 1⟩ b b =
        ⟨[⟨1, a, false⟩], [⟨1, b⟩], [], [], [], 2, 1⟩ := by
      simp [addAlias, hg]
    rw [this]; exact hres1
  · have : addAlias ⟨[⟨1, a, false⟩], [⟨1, b⟩], [], [], [], 2, 1⟩ b c =
        ⟨[⟨1, a, false⟩], [⟨1, b⟩, ⟨1, c⟩], [], [], [], 2, 1⟩ := by
      simp [addAlias, hg, hbc]
    rw [this]
    simp [resolvePlayerName, hbc]

/-- Claim C2, code bug: on a store holding one game won by `A` against `B`
and one won by `B` against `A`, `playerAppearanceCounts` lists each name
twice (a winner-count row and a loser-count row of 1 each) instead of once
with the summed count 2 — the `UNION ALL` arms are never merged per name,
contradicting the function's own per-name documentation and the inference
heuristic built on it. -/
theorem c2_bug_duplicate_name_rows :
    getPlayerNameCounts dbSwap = [("A", 1), ("B", 1), ("B", 1), ("A", 1)]
    ∧ (getPlayerNameCounts dbSwap).countP (fun p => p.1 == "A") = 2 := by decide

/-- Claim C3, counterexample: on a store whose only player `Alice` is
already marked local but that holds no games, `inferLocalUser` returns
`none` — the empty-counts exit precedes the already-local check, while the
claim requires `Alice`. -/
theorem c3_counterexample :
    getMyNames rmLocalOnly.db = ["Alice"] ∧ (detectMyName rmLocalOnly).1 = none := by
  decide

/-- Claim C3, amended: `inferLocalUser` first fetches the appearance
counts; if they are empty it returns none even when a player is already
marked local; otherwise an already-marked player's first name is returned
without re-inferring; otherwise a second-ranked count equal to the top
count yields none with no marking; otherwise the top name is marked local
(an `UPDATE` on its player row plus the in-memory seed) and returned. -/
theorem c3_amended_case_order (rm : RecordManager) :
    (getPlayerNameCounts rm.db = [] → detectMyName rm = (none, rm))
    ∧ (∀ best rest e more, getPlayerNameCounts rm.db = best :: rest →
        getMyNames rm.db = e :: more → detectMyName rm = (some e, rm))
    ∧ (∀ best rest, getPlayerNameCounts rm.db = best :: rest →
        getMyNames rm.db = [] → secondTies best.2 rest = true →
        detectMyName rm = (none, rm))
    ∧ (∀ best rest, getPlayerNameCounts rm.db = best :: rest →
        getMyNames rm.db = [] → secondTies best.2 rest = false →
        detectMyName rm = (some best.1,
          { rm with db := setPlayerIsMe rm.db best.1 true,
                    my_names_mem := rm.my_names_mem ++ [best.1] })) := by
  refine ⟨fun h => ?_, fun best rest e more h1 h2 => ?_,
          fun best rest h1 h2 h3 => ?_, fun best rest h1 h2 h3 => ?_⟩
  · simp [detectMyName, h]
  · obtain ⟨bn, bc⟩ := best
    simp [detectMyName, h1, h2]
  · obtain ⟨bn, bc⟩ := best
    simp only [detectMyName, h1, h2, h3, if_true]
  · obtain ⟨bn, bc⟩ := best
    simp only [detectMyName, h1, h2, h3, if_false, Bool.false_eq_true]

/-- Claim C3, witness for the amended case analysis: on `rmInferW` the
top-count name `Alice` (2 appearances against 1) is inferred, marked and
returned. -/
theorem c3_amended_witness :
    detectMyName rmInferW = (some "Alice",
      { rmInferW with db := setPlayerIsMe rmInferW.db "Alice" true,
                      my_names_mem := rmInferW.my_names_mem ++ ["Alice"] }) :=
  (c3_amended_case_order rmInferW).2.2.2 ("Alice", 2) [("Bob", 1), ("Carol", 1)]
    (by decide) (by decide) (by decide)

/-! ## Support lemmas: ingestion units -/

theorem getOrCreatePlayer_games (s : DBState) (n : String) :
    ((getOrCreatePlayer s n).2).games = s.games := by
  unfold getOrCreatePlayer
  rcases h1 : s.players.find? (fun p => p.name == n) with _ | p
  · rcases h2 : s.aliases.find? (fun a => a.alt_name == n) with _ | a <;> simp [h1, h2]
  · simp [h1]

theorem ingestUnits_tail_games (rm : RecordManager) (pr : DecodedReplay) (rf : String) :
    ∀ u ∈ (ingestUnits rm pr rf).tail, ∀ s, (u s).games = s.games := by
  intro u hu s
  unfold ingestUnits at hu
  simp only [List.cons_append, List.tail_cons, List.mem_append, List.mem_flatMap,
    List.mem_cons, List.mem_singleton, List.not_mem_nil, or_false] at hu
  rcases hu with ⟨p, _, hc | hc⟩ | ⟨m, _, hc | hc⟩ <;> subst hc
  · exact getOrCreatePlayer_games s _
  · rfl
  · exact getOrCreatePlayer_games s _
  · rfl

theorem applyUnits_games_of_preserve (units : List (DBState → DBState))
    (h : ∀ u ∈ units, ∀ s, (u s).games = s.games) :
    ∀ s, (applyUnits units s).games = s.games := by
  induction units with
  | nil => intro s; rfl
  | cons u us ih =>
    intro s
    have : applyUnits (u :: us) s = applyUnits us (u s) := rfl
    rw [this, ih (fun v hv => h v (List.mem_cons_of_mem u hv)) (u s),
        h u (List.mem_cons_self u us) s]

theorem applyUnits_ingest_games (rm : RecordManager) (pr : DecodedReplay) (rf : String) :
    (applyUnits (ingestUnits rm pr rf) rm.db).games =
      rm.db.games ++ [⟨rm.db.next_game_id, buildGameData pr rf (rmNames rm)⟩] := by
  have hhead : ingestUnits rm pr rf =
      (fun s => (insertGame s (buildGameData pr rf (rmNames rm))).2)
        :: (ingestUnits rm pr rf).tail := by
    unfold ingestUnits; rfl
  rw [hhead]
  have : applyUnits ((fun s => (insertGame s (buildGameData pr rf (rmNames rm))).2)
      :: (ingestUnits rm pr rf).tail) rm.db =
      applyUnits (ingestUnits rm pr rf).tail
        ((insertGame rm.db (buildGameData pr rf (rmNames rm))).2) := rfl
  rw [this, applyUnits_games_of_preserve _ (ingestUnits_tail_games rm pr rf)]
  rfl

theorem processReplay_some_elim {rm rm' : RecordManager} {path : String}
    {d : Option DecodedReplay} {gd : GameData}
    (h : processReplay rm path d = (some gd, rm')) :
    gameExists rm.db (basename path) = false
    ∧ ∃ pr, d = some pr ∧ gd = buildGameData pr (basename path) (rmNames rm)
        ∧ rm' = { rm with db := applyUnits (ingestUnits rm pr (basename path)) rm.db } := by
  unfold processReplay at h
  by_cases hex : gameExists rm.db (basename path)
  · simp [hex] at h
  · cases d with
    | none => simp [hex] at h
    | some pr =>
      simp only [hex, Bool.false_eq_true, if_false] at h
      refine ⟨by simpa using hex, pr, rfl, ?_, ?_⟩
      · exact (Option.some.injEq _ _ ▸ congrArg Prod.fst h).symm
      · exact (congrArg Prod.snd h).symm

theorem countGame_ingest {rm rm' : RecordManager} {path : String}
    {d : Option DecodedReplay} {gd : GameData}
    (h : processReplay rm path d = (some gd, rm')) :
    countGame rm'.db (basename path) = 1 := by
  obtain ⟨hex, pr, hd, hgd, hrm⟩ := processReplay_some_elim h
  have hz : countGame rm.db (basename path) = 0 := by
    rw [countGame, List.countP_eq_zero]
    intro g hg
    rw [gameExists] at hex
    have h2 := List.any_eq_false.mp hex g hg
    simpa using h2
  rw [hrm, countGame]
  show ((applyUnits (ingestUnits rm pr (basename path)) rm.db).games).countP _ = 1
  rw [applyUnits_ingest_games, List.countP_append]
  rw [countGame] at hz
  simp [hz, hgd, buildGameData]

/-- Claim C5: once an ingest of a replay file has succeeded, the store has
exactly one `games` row for that file identifier, and a repeated ingest of
the same file performs no writes and returns `none` (a skip). -/
theorem c5_ingest_idempotent (rm rm' : RecordManager) (path : String)
    (d d2 : Option DecodedReplay) (gd : GameData)
    (h : processReplay rm path d = (some gd, rm')) :
    countGame rm'.db (basename path) = 1
    ∧ processReplay rm' path d2 = (none, rm') := by
  have hc := countGame_ingest h
  refine ⟨hc, ?_⟩
  have hex : gameExists rm'.db (basename path) = true := by
    rw [gameExists, List.any_eq_true]
    have hpos : 0 < countGame rm'.db (basename path) := by omega
    rw [countGame] at hpos
    rcases List.countP_pos_iff.mp hpos with ⟨g, hg, hp⟩
    exact ⟨g, hg, hp⟩
  unfold processReplay
  simp [hex]

/-- Claim C5, witness: a concrete first ingest stores one row and a second
call on the resulting state is a stateless skip. -/
theorem c5_witness :
    countGame rmIngested.db (basename "dir1/x.rep") = 1
    ∧ processReplay rmIngested "dir1/x.rep" (some decodedW) = (none, rmIngested) :=
  c5_ingest_idempotent rmEmpty rmIngested "dir1/x.rep" (some decodedW) (some decodedW)
    (buildGameData decodedW (basename "dir1/x.rep") (rmNames rmEmpty)) (by decide)

/-- Claim C10: ingestion commits one storage unit of work at a time.  Once
at least the first unit (the `games` insert) has committed, any failure
among the remaining participant and chat units leaves the Game row behind
(`gameExists` is true on every such prefix state), and every later ingest
of the same file identifier returns `none` and leaves the store exactly as
it was — the missing participant and chat rows are never re-created. -/
theorem c10_partial_ingest_sticks (rm : RecordManager) (path : String)
    (pr : DecodedReplay) (k : Nat) (d2 : Option DecodedReplay)
    (_hex : gameExists rm.db (basename path) = false) (hk : 1 ≤ k) :
    gameExists (applyUnits ((ingestUnits rm pr (basename path)).take k) rm.db)
      (basename path) = true
    ∧ processReplay
        { rm with db := applyUnits ((ingestUnits rm pr (basename path)).take k) rm.db }
        path d2 =
      (none,
        { rm with db := applyUnits ((ingestUnits rm pr (basename path)).take k) rm.db }) := by
  obtain ⟨k, rfl⟩ : ∃ j, k = j + 1 := ⟨k - 1, by omega⟩
  have hhead : ingestUnits rm pr (basename path) =
      (fun s => (insertGame s (buildGameData pr (basename path) (rmNames rm))).2)
        :: (ingestUnits rm pr (basename path)).tail := by
    unfold ingestUnits; rfl
  have htake : (ingestUnits rm pr (basename path)).take (k + 1) =
      (fun s => (insertGame s (buildGameData pr (basename path) (rmNames rm))).2)
        :: (ingestUnits rm pr (basename path)).tail.take k := by
    rw [hhead]; rfl
  have hgames : (applyUnits ((ingestUnits rm pr (basename path)).take (k + 1)) rm.db).games =
      rm.db.games ++ [⟨rm.db.next_game_id, buildGameData pr (basename path) (rmNames rm)⟩] := by
    rw [htake]
    have hstep : applyUnits
        ((fun s => (insertGame s (buildGameData pr (basename path) (rmNames rm))).2)
          :: (ingestUnits rm pr (basename path)).tail.take k) rm.db =
        applyUnits ((ingestUnits rm pr (basename path)).tail.take k)
          ((insertGame rm.db (buildGameData pr (basename path) (rmNames rm))).2) := rfl
    rw [hstep, applyUnits_games_of_preserve _
      (fun u hu => ingestUnits_tail_games rm pr (basename path) u (List.take_subset k _ hu))]
    rfl
  have hex2 : gameExists (applyUnits ((ingestUnits rm pr (basename path)).take (k + 1)) rm.db)
      (basename path) = true := by
    rw [gameExists, hgames, List.any_append]
    simp [buildGameData]
  refine ⟨hex2, ?_⟩
  unfold processReplay
  simp [hex2]

/-- Claim C10, witness: on a fresh store, committing only the first
ingestion unit for `dir1/x.rep` leaves the Game row visible, and a re-run
of ingest on that partial state is a stateless skip. -/
theorem c10_witness :
    gameExists (applyUnits ((ingestUnits rmEmpty decodedW (basename "dir1/x.rep")).take 1)
        rmEmpty.db) (basename "dir1/x.rep") = true
    ∧ processReplay
        { rmEmpty with
            db := applyUnits ((ingestUnits rmEmpty decodedW (basename "dir1/x.rep")).take 1)
                    rmEmpty.db }
        "dir1/x.rep" none =
      (none,
        { rmEmpty with
            db := applyUnits ((ingestUnits rmEmpty decodedW (basename "dir1/x.rep")).take 1)
                    rmEmpty.db }) :=
  c10_partial_ingest_sticks rmEmpty "dir1/x.rep" decodedW 1 none (by decide) (by decide)

/-! ## Support lemmas: watcher -/

theorem handleEvent_cases (processed : List String) (e : WEvent) :
    handleEvent processed e = (processed, false)
    ∨ (handleEvent processed e = (processed ++ [basename e.src_path], true)
        ∧ processed.contains (basename e.src_path) = false) := by
  unfold handleEvent
  split_ifs with h1 h2 h3 h4
  · exact Or.inl rfl
  · exact Or.inl rfl
  · exact Or.inl rfl
  · exact Or.inl rfl
  · exact Or.inr ⟨rfl, by simpa using h3⟩

theorem contains_true_iff (l : List String) (a : String) : l.contains a = true ↔ a ∈ l :=
  List.elem_iff

theorem handleEvent_of_mem (processed : List String) (e : WEvent)
    (h : basename e.src_path ∈ processed) :
    handleEvent processed e = (processed, false) := by
  rcases handleEvent_cases processed e with hc | ⟨_, hc⟩
  · exact hc
  · have hcontra := (contains_true_iff processed (basename e.src_path)).mpr h
    rw [hc] at hcontra
    exact absurd hcontra (by simp)

theorem runWatcher_cons (processed : List String) (e : WEvent) (rest : List WEvent) :
    runWatcher processed (e :: rest) =
      ((runWatcher (handleEvent processed e).1 rest).1,
       (if (handleEvent processed e).2 then [e] else [])
         ++ (runWatcher (handleEvent processed e).1 rest).2) := rfl

theorem runWatcher_count_zero (name : String) (evs : List WEvent) :
    ∀ processed, name ∈ processed →
      ((runWatcher processed evs).2.countP (fun d => basename d.src_path == name)) = 0 := by
  induction evs with
  | nil => intro processed _; rfl
  | cons e rest ih =>
    intro processed hmem
    rw [runWatcher_cons]
    rcases handleEvent_cases processed e with hc | ⟨hc, hnc⟩
    · rw [hc]
      simpa using ih processed hmem
    · rw [hc]
      have hne : (basename e.src_path == name) = false := by
        have hnm : basename e.src_path ∉ processed := by
          intro hin
          have hcontra := (contains_true_iff processed (basename e.src_path)).mpr hin
          rw [hnc] at hcontra
          exact absurd hcontra (by simp)
        simp only [beq_eq_false_iff_ne, ne_eq]
        intro hq; exact hnm (hq ▸ hmem)
      have hz := ih (processed ++ [basename e.src_path]) (List.mem_append_left _ hmem)
      simpa [List.countP_cons, hne] using hz

theorem runWatcher_count_le_one (name : String) (evs : List WEvent) :
    ∀ processed,
      ((runWatcher processed evs).2.countP (fun d => basename d.src_path == name)) ≤ 1 := by
  induction evs with
  | nil => intro processed; simp [runWatcher]
  | cons e rest ih =>
    intro processed
    rw [runWatcher_cons]
    rcases handleEvent_cases processed e with hc | ⟨hc, _⟩
    · rw [hc]
      simpa using ih processed
    · rw [hc]
      by_cases hn : basename e.src_path = name
      · rw [hn]
        have hz := runWatcher_count_zero name rest (processed ++ [name])
          (List.mem_append_right _ (List.mem_singleton_self _))
        simp [List.countP_cons, hz, hn]
      · have hne : (basename e.src_path == name) = false := by
          simpa [beq_eq_false_iff_ne] using hn
        have hle := ih (processed ++ [basename e.src_path])
        simpa [List.countP_cons, hne] using hle

/-- Claim C8: a name already in the processed-set is ignored by every later
event (no callback, no state change); over any event sequence from a fresh
watcher each file name is delivered at most once; and the callback-failure
flag influences neither the processed-set nor the delivery decision (the
failure is caught after the name is recorded, so a failed delivery is not
retried and the watcher keeps running). -/
theorem c8_watcher_one_shot (processed : List String) (evs : List WEvent) (e : WEvent)
    (hmem : basename e.src_path ∈ processed) :
    handleEvent processed e = (processed, false)
    ∧ (∀ name, ((runWatcher [] evs).2.countP (fun d => basename d.src_path == name)) ≤ 1)
    ∧ (∀ q f b, handleEvent q { f with cb_fails := b } = handleEvent q f) :=
  ⟨handleEvent_of_mem processed e hmem,
   fun name => runWatcher_count_le_one name evs [],
   fun _ _ _ => rfl⟩

/-- Claim C8, witness: a second event for an already-delivered name is
dropped with no callback. -/
theorem c8_witness :
    handleEvent ["x.rep"] ⟨"d/x.rep", false, false, true⟩ = (["x.rep"], false) :=
  (c8_watcher_one_shot ["x.rep"] [] ⟨"d/x.rep", false, false, true⟩ (by decide)).1

/-- Claim C9: deduplication keys on the file basename, not the full path.
If a replay at `p1` has been ingested, ingesting any `p2` with the same
basename is a stateless skip returning `none`; and once the watcher has
delivered `p1`, any event for `p2` produces no callback and no state
change. -/
theorem c9_basename_dedup (rm rm' : RecordManager) (p1 p2 : String)
    (d1 d2 : Option DecodedReplay) (gd : GameData)
    (_hne : p1 ≠ p2) (hb : basename p1 = basename p2)
    (h : processReplay rm p1 d1 = (some gd, rm')) :
    processReplay rm' p2 d2 = (none, rm')
    ∧ ∀ processed e1 e2, e1.src_path = p1 → e2.src_path = p2 →
        (handleEvent processed e1).2 = true →
        handleEvent (handleEvent processed e1).1 e2 = ((handleEvent processed e1).1, false) := by
  constructor
  · have hc := countGame_ingest h
    have hex : gameExists rm'.db (basename p2) = true := by
      rw [gameExists, List.any_eq_true]
      have hpos : 0 < countGame rm'.db (basename p1) := by omega
      rw [countGame] at hpos
      rcases List.countP_pos_iff.mp hpos with ⟨g, hg, hp⟩
      exact ⟨g, hg, by rw [← hb]; exact hp⟩
    unfold processReplay
    simp [hex]
  · intro processed e1 e2 h1 h2 hdel
    rcases handleEvent_cases processed e1 with hc | ⟨hc, _⟩
    · rw [hc] at hdel; simp at hdel
    · rw [hc]
      apply handleEvent_of_mem
      rw [h2, ← hb, ← h1]
      exact List.mem_append_right _ (by simp)

/-- Claim C9, witness: after ingesting `dir1/x.rep`, ingesting
`dir2/x.rep` (a distinct path, same name) is a stateless skip. -/
theorem c9_witness :
    processReplay rmIngested "dir2/x.rep" (some decodedW) = (none, rmIngested) :=
  (c9_basename_dedup rmEmpty rmIngested "dir1/x.rep" "dir2/x.rep" (some decodedW)
    (some decodedW) (buildGameData decodedW (basename "dir1/x.rep") (rmNames rmEmpty))
    (by decide) (by decide) (by decide)).1

/-! ## Support lemmas: filename date token -/

theorem searchDate_none_iff (cs : List Char) :
    searchDate cs = none ↔ ∀ i, tokenShape ((cs.drop i).take 17) = false := by
  induction cs with
  | nil => simp [searchDate, tokenShape]
  | cons c rest ih =>
    constructor
    · intro h i
      unfold searchDate at h
      rcases hm : matchDateAt (c :: rest) with _ | r
      · rw [hm] at h
        cases i with
        | zero =>
          unfold matchDateAt at hm
          by_cases hs : tokenShape ((c :: rest).take 17) = true
          · rw [if_pos hs] at hm; cases hm
          · simpa using hs
        | succ j =>
          exact (ih.mp h) j
      · rw [hm] at h; cases h
    · intro h
      unfold searchDate
      have h0 := h 0
      have hm : matchDateAt (c :: rest) = none := by
        unfold matchDateAt
        simp only [List.drop] at h0
        rw [h0]; rfl
      rw [hm]
      exact ih.mpr (fun j => h (j + 1))

theorem searchDate_first_match (cs : List Char) :
    ∀ i, tokenShape ((cs.drop i).take 17) = true →
      (∀ j, j < i → tokenShape ((cs.drop j).take 17) = false) →
      searchDate cs = matchDateAt (cs.drop i) := by
  induction cs with
  | nil =>
    intro i hi _
    simp [tokenShape] at hi
  | cons c rest ih =>
    intro i hi hbefore
    cases i with
    | zero =>
      unfold searchDate
      have hm : matchDateAt (c :: rest) =
          some (String.mk ((c :: rest).take 10), String.mk (((c :: rest).drop 11).take 6)) := by
        unfold matchDateAt
        rw [if_pos (by simpa using hi)]
      rw [hm]
      unfold matchDateAt
      rw [if_pos (by simpa using hi)]
      rfl
    | succ j =>
      unfold searchDate
      have h0 := hbefore 0 (Nat.succ_pos j)
      have hm : matchDateAt (c :: rest) = none := by
        unfold matchDateAt
        simp only [List.drop] at h0
        rw [h0]; rfl
      rw [hm]
      exact ih j hi (fun k hk => hbefore (k + 1) (Nat.succ_lt_succ hk))

theorem extractDatetime_of_match {f : String} {i : Nat}
    (hi : tokenShape ((f.data.drop i).take 17) = true)
    (hbefore : ∀ j, j < i → tokenShape ((f.data.drop j).take 17) = false) :
    extractDatetime f = some (formatToken (f.data.drop i)) := by
  have hs := searchDate_first_match f.data i hi hbefore
  have hm : matchDateAt (f.data.drop i) =
      some (String.mk ((f.data.drop i).take 10),
            String.mk (((f.data.drop i).drop 11).take 6)) := by
    unfold matchDateAt
    rw [if_pos hi]
  rw [extractDatetime, hs, hm]
  simp only [formatToken, List.take_take, List.drop_take, List.drop_drop]
  norm_num

/-- Claim C4, amended: the played-at field is derived solely from the
filename.  It always equals `_extract_datetime(filename)`; when some
position of the filename starts a `YYYY-MM-DD@HHMMSS` token, the leftmost
such token is rendered as `YYYY-MM-DD HH:MM:SS`; when no position does,
played-at is `none` — there is no fallback to any decoder-supplied timing. -/
theorem c4_amended_played_at (pr : DecodedReplay) (my : List String) (f : String) :
    (buildGameData pr f my).played_at = extractDatetime f
    ∧ ((∀ i, tokenShape ((f.data.drop i).take 17) = false) →
        (buildGameData pr f my).played_at = none)
    ∧ (∀ i, tokenShape ((f.data.drop i).take 17) = true →
        (∀ j, j < i → tokenShape ((f.data.drop j).take 17) = false) →
        (buildGameData pr f my).played_at = some (formatToken (f.data.drop i))) := by
  refine ⟨rfl, fun h => ?_, fun i hi hb => ?_⟩
  · show extractDatetime f = none
    rw [extractDatetime, (searchDate_none_iff f.data).mpr h]
  · show extractDatetime f = some (formatToken (f.data.drop i))
    exact extractDatetime_of_match hi hb

/-- Claim C4, witness for the amended claim: a filename carrying the token
at position 0 yields the formatted played-at. -/
theorem c4_amended_witness :
    (buildGameData decodedW "2026-02-07@020624_LastReplay.rep" []).played_at =
      some (formatToken (("2026-02-07@020624_LastReplay.rep" : String).data.drop 0)) :=
  (c4_amended_played_at decodedW [] "2026-02-07@020624_LastReplay.rep").2.2 0
    (by decide) (fun j hj => absurd hj (Nat.not_lt_zero j))

/-- Claim C4, counterexample: for a filename without the date token the
built record's played-at is `none` even though the decoder summary carries
timing data (`duration_seconds`, duration text) — nothing falls back to
decoder-provided timing, the field is simply left absent. -/
theorem c4_counterexample :
    (buildGameData decodedW "LastReplay.rep" []).played_at = none
    ∧ decodedW.duration_seconds = some 300 ∧ decodedW.duration = some "05:00" := by
  decide

/-! ## Support lemmas: record-vs aggregation -/

theorem vsFold_spec (my : List String) (resolved : String) (rows : List GameRow) :
    ∀ w0 l0 gs0, rows.foldl (vsStep my resolved) (w0, l0, gs0) =
      (w0 + rows.countP (winFor my resolved),
       l0 + rows.countP (fun g => !winFor my resolved g && lossFor my resolved g),
       gs0 ++ rows.map (fun g => (g, vsTag my resolved g))) := by
  induction rows with
  | nil => intro w0 l0 gs0; simp
  | cons g rest ih =>
    intro w0 l0 gs0
    show rest.foldl (vsStep my resolved) (vsStep my resolved (w0, l0, gs0) g) = _
    by_cases hw : winFor my resolved g = true
    · rw [show vsStep my resolved (w0, l0, gs0) g = (w0 + 1, l0, gs0 ++ [(g, "win")]) by
        simp [vsStep, hw]]
      rw [ih]
      simp only [List.countP_cons, List.map_cons, Prod.mk.injEq]
      refine ⟨by simp [hw]; omega, by simp [hw], by simp [vsTag, hw]⟩
    · by_cases hl : lossFor my resolved g = true
      · rw [show vsStep my resolved (w0, l0, gs0) g = (w0, l0 + 1, gs0 ++ [(g, "loss")]) by
          simp [vsStep, hw, hl]]
        rw [ih]
        simp only [List.countP_cons, List.map_cons, Prod.mk.injEq]
        refine ⟨by simp [hw], by simp [hw, hl]; omega, by simp [vsTag, hw, hl]⟩
      · rw [show vsStep my resolved (w0, l0, gs0) g = (w0, l0, gs0 ++ [(g, "unknown")]) by
          simp [vsStep, hw, hl]]
        rw [ih]
        simp only [List.countP_cons, List.map_cons, Prod.mk.injEq]
        refine ⟨by simp [hw], by simp [hw, hl], by simp [vsTag, hw, hl]⟩

theorem winFor_imp_select {my : List String} {r : String} {g : GameRow}
    (h : winFor my r g = true) : vsSelect r g = true := by
  rw [winFor, Bool.and_eq_true] at h
  rw [vsSelect, Bool.or_eq_true]
  exact Or.inr h.2

theorem lossFor_imp_select {my : List String} {r : String} {g : GameRow}
    (h : lossFor my r g = true) : vsSelect r g = true := by
  rw [lossFor, Bool.and_eq_true] at h
  rw [vsSelect, Bool.or_eq_true]
  exact Or.inl h.2

theorem countP_filter_of_imp (p q : GameRow → Bool) (l : List GameRow)
    (h : ∀ g, p g = true → q g = true) :
    (l.filter q).countP p = l.countP p := by
  rw [List.countP_filter]
  exact List.countP_congr (fun x _ => by
    constructor
    · intro hx; exact (Bool.and_eq_true _ _).mp hx |>.1
    · intro hx; exact (Bool.and_eq_true _ _).mpr ⟨hx, h x hx⟩)

/-- Claim C6: `recordAgainst` resolves the queried name through the alias
table, keeps exactly the games in which the resolved name is winner or
loser ordered by played-at descending, tags each as win / loss / unknown
from the local-user set's perspective (win when a local name won and the
resolved opponent lost, loss when a local name lost and the resolved
opponent won, the win branch taking priority), and reports wins and losses
as the counts of those tags with `total = wins + losses`. -/
theorem c6_record_against (s : DBState) (name : String) :
    (getRecordVs s name).opponent = resolvePlayerName s name
    ∧ (getRecordVs s name).total = (getRecordVs s name).wins + (getRecordVs s name).losses
    ∧ (getRecordVs s name).wins =
        s.games.countP (winFor (getMyNames s) (resolvePlayerName s name))
    ∧ (getRecordVs s name).losses =
        s.games.countP (fun g =>
          !winFor (getMyNames s) (resolvePlayerName s name) g
            && lossFor (getMyNames s) (resolvePlayerName s name) g)
    ∧ ((getRecordVs s name).games.map Prod.fst).Perm
        (s.games.filter (vsSelect (resolvePlayerName s name)))
    ∧ List.Sorted gameDesc ((getRecordVs s name).games.map Prod.fst)
    ∧ ∀ p ∈ (getRecordVs s name).games,
        p.2 = vsTag (getMyNames s) (resolvePlayerName s name) p.1 := by
  have hfold := vsFold_spec (getMyNames s) (resolvePlayerName s name)
    (sortGamesDesc (s.games.filter (vsSelect (resolvePlayerName s name)))) 0 0 []
  have hr : getRecordVs s name =
      ⟨resolvePlayerName s name,
       ((sortGamesDesc (s.games.filter (vsSelect (resolvePlayerName s name)))).foldl
          (vsStep (getMyNames s) (resolvePlayerName s name)) (0, 0, [])).1,
       ((sortGamesDesc (s.games.filter (vsSelect (resolvePlayerName s name)))).foldl
          (vsStep (getMyNames s) (resolvePlayerName s name)) (0, 0, [])).2.1,
       ((sortGamesDesc (s.games.filter (vsSelect (resolvePlayerName s name)))).foldl
          (vsStep (getMyNames s) (resolvePlayerName s name)) (0, 0, [])).1 +
         ((sortGamesDesc (s.games.filter (vsSelect (resolvePlayerName s name)))).foldl
            (vsStep (getMyNames s) (resolvePlayerName s name)) (0, 0, [])).2.1,
       ((sortGamesDesc (s.games.filter (vsSelect (resolvePlayerName s name)))).foldl
          (vsStep (getMyNames s) (resolvePlayerName s name)) (0, 0, [])).2.2⟩ := rfl
  rw [hfold] at hr
  simp only [Nat.zero_add, List.nil_append] at hr
  have hperm : (sortGamesDesc (s.games.filter (vsSelect (resolvePlayerName s name)))).Perm
      (s.games.filter (vsSelect (resolvePlayerName s name))) :=
    List.perm_insertionSort gameDesc _
  have hmapfst :
      ((sortGamesDesc (s.games.filter (vsSelect (resolvePlayerName s name)))).map
        (fun g => (g, vsTag (getMyNames s) (resolvePlayerName s name) g))).map Prod.fst =
      sortGamesDesc (s.games.filter (vsSelect (resolvePlayerName s name))) := by
    rw [List.map_map]
    exact List.map_id _
  refine ⟨by rw [hr], by rw [hr], ?_, ?_, ?_, ?_, ?_⟩
  · rw [hr]
    show List.countP _ _ = _
    rw [hperm.countP_eq]
    exact countP_filter_of_imp _ _ _ (fun g => winFor_imp_select)
  · rw [hr]
    show List.countP _ _ = _
    rw [hperm.countP_eq]
    refine countP_filter_of_imp _ _ _ (fun g hg => ?_)
    rw [Bool.and_eq_true] at hg
    exact lossFor_imp_select hg.2
  · rw [hr]
    show (List.map _ _).Perm _
    rw [hmapfst]
    exact hperm
  · rw [hr]
    show List.Sorted gameDesc (List.map _ _)
    rw [hmapfst]
    exact List.sorted_insertionSort gameDesc _
  · rw [hr]
    intro p hp
    show p.2 = _
    rcases List.mem_map.mp hp with ⟨g, _, rfl⟩
    rfl

/-! ## Support: per-opponent stats characterisation -/

theorem lookupStat_updateStats (acc : List (String × OppStat)) (opp : String)
    (w : Bool) (p : Option String) (k : String) :
    lookupStat (updateStats acc opp w p) k =
      if k = opp then some (bump ((lookupStat acc opp).getD ⟨0, 0, none⟩) w p)
      else lookupStat acc k := by
  induction acc with
  | nil =>
    by_cases hk : k = opp
    · subst hk; simp [updateStats, lookupStat]
    · simp [updateStats, lookupStat, hk, Ne.symm hk]
  | cons e rest ih =>
    obtain ⟨k0, st0⟩ := e
    by_cases h0 : k0 = opp
    · subst h0
      by_cases hk : k0 = k
      · subst hk
        simp [updateStats, lookupStat]
      · simp [updateStats, lookupStat, hk, Ne.symm hk]
    · by_cases hk : k0 = k
      · subst hk
        have hko : ¬k0 = opp := h0
        simp [updateStats, lookupStat, h0, hko]
      · rw [show updateStats ((k0, st0) :: rest) opp w p =
            (k0, st0) :: updateStats rest opp w p by simp [updateStats, h0]]
        rw [show lookupStat ((k0, st0) :: updateStats rest opp w p) k =
            lookupStat (updateStats rest opp w p) k by simp [lookupStat, hk]]
        rw [ih]
        rw [show lookupStat ((k0, st0) :: rest) opp = lookupStat rest opp by
          simp [lookupStat, h0]]
        rw [show lookupStat ((k0, st0) :: rest) k = lookupStat rest k by
          simp [lookupStat, hk]]

theorem lookupStat_foldStats (my : List String) (rows : List GameRow) :
    ∀ acc opp, lookupStat (foldStats my acc rows) opp =
      applyOccs (lookupStat acc opp) (occsOf my opp rows) := by
  induction rows with
  | nil => intro acc opp; rfl
  | cons g rest ih =>
    intro acc opp
    rcases ho : opponentOf my g with _ | p
    · have h1 : foldStats my acc (g :: rest) = foldStats my acc rest := by
        show List.foldl _ _ (g :: rest) = _
        simp [List.foldl_cons, ho, foldStats]
      have h2 : occsOf my opp (g :: rest) = occsOf my opp rest := by
        simp [occsOf, List.filterMap_cons, ho]
      rw [h1, h2, ih]
    · have h1 : foldStats my acc (g :: rest) =
          foldStats my (updateStats acc p.1 p.2 g.data.played_at) rest := by
        show List.foldl _ _ (g :: rest) = _
        simp [List.foldl_cons, ho, foldStats]
      by_cases hp : p.1 = opp
      · have h2 : occsOf my opp (g :: rest) =
            (p.2, g.data.played_at) :: occsOf my opp rest := by
          simp [occsOf, List.filterMap_cons, ho, hp]
        rw [h1, ih, h2, lookupStat_updateStats, if_pos hp.symm, hp]
        rfl
      · have h2 : occsOf my opp (g :: rest) = occsOf my opp rest := by
          simp [occsOf, List.filterMap_cons, ho, hp]
        rw [h1, h2, ih, lookupStat_updateStats,
            if_neg (fun h => hp h.symm)]

theorem applyOccs_some (os : List (Bool × Option String)) :
    ∀ st, applyOccs (some st) os = some (os.foldl applyOcc st) := by
  induction os with
  | nil => intro st; rfl
  | cons o rest ih =>
    intro st
    show applyOccs (some (applyOcc st o)) rest = _
    rw [ih, List.foldl_cons]

theorem foldl_applyOcc_spec (os : List (Bool × Option String)) :
    ∀ st, os.foldl applyOcc st =
      ⟨st.wins + os.countP (fun o => o.1),
       st.losses + os.countP (fun o => !o.1),
       if st.last_played = none then firstSome (os.map Prod.snd) else st.last_played⟩ := by
  induction os with
  | nil =>
    intro st
    cases st with
    | mk w l lp => cases lp <;> simp [firstSome]
  | cons o rest ih =>
    intro st
    obtain ⟨ow, op⟩ := o
    rw [List.foldl_cons, ih]
    have hbump : applyOcc st (ow, op) =
        ⟨st.wins + (if ow then 1 else 0), st.losses + (if ow then 0 else 1),
         if st.last_played = none then op else st.last_played⟩ := by
      cases ow <;> cases hlp : st.last_played <;>
        simp [applyOcc, bump, hlp]
    rw [hbump]
    simp only [List.countP_cons, List.map_cons]
    rcases hlp : st.last_played with _ | x
    · cases ow <;> rcases op with _ | y <;>
        simp [firstSome] <;> try omega
    · cases ow <;> rcases op with _ | y <;> simp <;> omega

theorem applyOccs_none_spec (os : List (Bool × Option String)) :
    applyOccs none os = if os = [] then none else some (statOfOccs os) := by
  cases os with
  | nil => rfl
  | cons o rest =>
    rw [show applyOccs none (o :: rest) =
        applyOccs (some (applyOcc ⟨0, 0, none⟩ o)) rest from rfl]
    rw [applyOccs_some, show rest.foldl applyOcc (applyOcc ⟨0, 0, none⟩ o) =
        (o :: rest).foldl applyOcc ⟨0, 0, none⟩ from rfl]
    rw [foldl_applyOcc_spec]
    simp [statOfOccs]

theorem firstSome_all_none (l : List (Option String)) (h : ∀ x ∈ l, x = none) :
    firstSome l = none := by
  induction l with
  | nil => rfl
  | cons x rest ih =>
    have hx := h x (List.mem_cons_self x rest)
    subst hx
    exact ih (fun y hy => h y (List.mem_cons_of_mem _ hy))

theorem firstSome_head_of_sorted (l : List GameRow) (hs : List.Sorted gameDesc l) :
    ∀ g0 rest, l = g0 :: rest →
      firstSome (l.map (fun g => g.data.played_at)) = g0.data.played_at := by
  intro g0 rest hl
  subst hl
  rcases hpa : g0.data.played_at with _ | x
  · rw [List.map_cons, hpa]
    rw [show firstSome (none :: rest.map (fun g => g.data.played_at)) =
        firstSome (rest.map (fun g => g.data.played_at)) from rfl]
    apply firstSome_all_none
    intro y hy
    rcases List.mem_map.mp hy with ⟨g, hg, rfl⟩
    have hd : gameDesc g0 g := (List.pairwise_cons.mp hs).1 g hg
    rw [gameDesc, hpa] at hd
    exact optLe_none_right hd
  · rw [List.map_cons, hpa]
    rfl

theorem updateStats_keys (acc : List (String × OppStat)) (opp : String)
    (w : Bool) (p : Option String) :
    (updateStats acc opp w p).map Prod.fst =
      if opp ∈ acc.map Prod.fst then acc.map Prod.fst else acc.map Prod.fst ++ [opp] := by
  induction acc with
  | nil => simp [updateStats]
  | cons e rest ih =>
    obtain ⟨k0, st0⟩ := e
    by_cases h0 : k0 = opp
    · subst h0
      simp [updateStats]
    · rw [show updateStats ((k0, st0) :: rest) opp w p =
          (k0, st0) :: updateStats rest opp w p by simp [updateStats, h0]]
      by_cases hm : opp ∈ rest.map Prod.fst
      · rw [List.map_cons, ih, if_pos hm, if_pos (by simp [hm])]
        simp
      · rw [List.map_cons, ih, if_neg hm,
            if_neg (by simp [hm]; exact fun h => h0 h.symm)]
        simp

theorem updateStats_keys_nodup (acc : List (String × OppStat)) (opp : String)
    (w : Bool) (p : Option String) (h : (acc.map Prod.fst).Nodup) :
    ((updateStats acc opp w p).map Prod.fst).Nodup := by
  rw [updateStats_keys]
  by_cases hm : opp ∈ acc.map Prod.fst
  · rw [if_pos hm]; exact h
  · rw [if_neg hm]
    refine List.nodup_append.mpr ⟨h, List.nodup_singleton _, ?_⟩
    intro x hx hy
    rw [List.mem_singleton] at hy
    exact hm (hy ▸ hx)

theorem foldStats_keys_nodup (my : List String) (rows : List GameRow) :
    ∀ acc, (acc.map Prod.fst).Nodup → ((foldStats my acc rows).map Prod.fst).Nodup := by
  induction rows with
  | nil => intro acc h; exact h
  | cons g rest ih =>
    intro acc h
    rcases ho : opponentOf my g with _ | p
    · rw [show foldStats my acc (g :: rest) = foldStats my acc rest by
        show List.foldl _ _ (g :: rest) = _; simp [List.foldl_cons, ho, foldStats]]
      exact ih acc h
    · rw [show foldStats my acc (g :: rest) =
          foldStats my (updateStats acc p.1 p.2 g.data.played_at) rest by
        show List.foldl _ _ (g :: rest) = _; simp [List.foldl_cons, ho, foldStats]]
      exact ih _ (updateStats_keys_nodup acc p.1 p.2 g.data.played_at h)

theorem lookupStat_isSome_iff (l : List (String × OppStat)) (k : String) :
    (lookupStat l k).isSome = true ↔ k ∈ l.map Prod.fst := by
  induction l with
  | nil => simp [lookupStat]
  | cons e rest ih =>
    obtain ⟨k0, st0⟩ := e
    by_cases h0 : k0 = k
    · subst h0; simp [lookupStat]
    · rw [show lookupStat ((k0, st0) :: rest) k = lookupStat rest k by
        simp [lookupStat, h0]]
      rw [ih, List.map_cons]
      constructor
      · intro h; exact List.mem_cons_of_mem _ h
      · intro h
        rcases List.mem_cons.mp h with h | h
        · exact absurd h.symm h0
        · exact h

theorem lookupStat_of_nodup_mem {l : List (String × OppStat)} {k : String} {st : OppStat}
    (hnd : (l.map Prod.fst).Nodup) (hm : (k, st) ∈ l) : lookupStat l k = some st := by
  induction l with
  | nil => cases hm
  | cons e rest ih =>
    obtain ⟨k0, st0⟩ := e
    rcases List.mem_cons.mp hm with he | hr
    · cases he
      simp [lookupStat]
    · have hk0 : ¬k0 = k := by
        intro hk
        subst hk
        have : k0 ∈ rest.map Prod.fst := List.mem_map.mpr ⟨(k0, st), hr, rfl⟩
        exact (List.nodup_cons.mp (by simpa using hnd)).1 this
      rw [show lookupStat ((k0, st0) :: rest) k = lookupStat rest k by
        simp [lookupStat, hk0]]
      exact ih (List.nodup_cons.mp (by simpa using hnd)).2 hr

theorem occsOf_countP_true (my : List String) (opp : String) (rows : List GameRow) :
    (occsOf my opp rows).countP (fun o => o.1) =
      rows.countP (fun g => decide (opponentOf my g = some (opp, true))) := by
  induction rows with
  | nil => rfl
  | cons g rest ih =>
    rcases ho : opponentOf my g with _ | p
    · rw [show occsOf my opp (g :: rest) = occsOf my opp rest by
        simp [occsOf, List.filterMap_cons, ho]]
      rw [ih, List.countP_cons]
      simp [ho]
    · obtain ⟨o, w⟩ := p
      by_cases hp : o = opp
      · subst hp
        rw [show occsOf my o (g :: rest) = (w, g.data.played_at) :: occsOf my o rest by
          simp [occsOf, List.filterMap_cons, ho]]
        rw [List.countP_cons, List.countP_cons, ih]
        cases w <;> simp [ho]
      · rw [show occsOf my opp (g :: rest) = occsOf my opp rest by
          simp [occsOf, List.filterMap_cons, ho, hp]]
        rw [ih, List.countP_cons]
        simp [ho, hp]

theorem occsOf_countP_false (my : List String) (opp : String) (rows : List GameRow) :
    (occsOf my opp rows).countP (fun o => !o.1) =
      rows.countP (fun g => decide (opponentOf my g = some (opp, false))) := by
  induction rows with
  | nil => rfl
  | cons g rest ih =>
    rcases ho : opponentOf my g with _ | p
    · rw [show occsOf my opp (g :: rest) = occsOf my opp rest by
        simp [occsOf, List.filterMap_cons, ho]]
      rw [ih, List.countP_cons]
      simp [ho]
    · obtain ⟨o, w⟩ := p
      by_cases hp : o = opp
      · subst hp
        rw [show occsOf my o (g :: rest) = (w, g.data.played_at) :: occsOf my o rest by
          simp [occsOf, List.filterMap_cons, ho]]
        rw [List.countP_cons, List.countP_cons, ih]
        cases w <;> simp [ho]
      · rw [show occsOf my opp (g :: rest) = occsOf my opp rest by
          simp [occsOf, List.filterMap_cons, ho, hp]]
        rw [ih, List.countP_cons]
        simp [ho, hp]

theorem occsOf_map_snd (my : List String) (opp : String) (rows : List GameRow) :
    (occsOf my opp rows).map Prod.snd =
      (rows.filter (isOppRow my opp)).map (fun g => g.data.played_at) := by
  induction rows with
  | nil => rfl
  | cons g rest ih =>
    rcases ho : opponentOf my g with _ | p
    · rw [show occsOf my opp (g :: rest) = occsOf my opp rest by
        simp [occsOf, List.filterMap_cons, ho]]
      rw [show (g :: rest).filter (isOppRow my opp) = rest.filter (isOppRow my opp) by
        simp [List.filter_cons, isOppRow, ho]]
      exact ih
    · by_cases hp : p.1 = opp
      · rw [show occsOf my opp (g :: rest) = (p.2, g.data.played_at) :: occsOf my opp rest by
          simp [occsOf, List.filterMap_cons, ho, hp]]
        rw [show (g :: rest).filter (isOppRow my opp) = g :: rest.filter (isOppRow my opp) by
          simp [List.filter_cons, isOppRow, ho, hp]]
        rw [List.map_cons, List.map_cons, ih]
      · rw [show occsOf my opp (g :: rest) = occsOf my opp rest by
          simp [occsOf, List.filterMap_cons, ho, hp]]
        rw [show (g :: rest).filter (isOppRow my opp) = rest.filter (isOppRow my opp) by
          simp [List.filter_cons, isOppRow, ho, hp]]
        exact ih

theorem occsOf_eq_nil_iff (my : List String) (opp : String) (rows : List GameRow) :
    occsOf my opp rows = [] ↔ ∀ g ∈ rows, ∀ w, opponentOf my g ≠ some (opp, w) := by
  induction rows with
  | nil => simp [occsOf]
  | cons g rest ih =>
    rcases ho : opponentOf my g with _ | p
    · rw [show occsOf my opp (g :: rest) = occsOf my opp rest by
        simp [occsOf, List.filterMap_cons, ho]]
      rw [ih]
      constructor
      · intro h x hx w
        rcases List.mem_cons.mp hx with rfl | hr
        · rw [ho]; intro hc; cases hc
        · exact h x hr w
      · intro h x hx w
        exact h x (List.mem_cons_of_mem _ hx) w
    · by_cases hp : p.1 = opp
      · rw [show occsOf my opp (g :: rest) = (p.2, g.data.played_at) :: occsOf my opp rest by
          simp [occsOf, List.filterMap_cons, ho, hp]]
        constructor
        · intro h; cases h
        · intro h
          exact absurd (by rw [ho, ← hp]) (h g (List.mem_cons_self g rest) p.2)
      · rw [show occsOf my opp (g :: rest) = occsOf my opp rest by
          simp [occsOf, List.filterMap_cons, ho, hp]]
        rw [ih]
        constructor
        · intro h x hx w
          rcases List.mem_cons.mp hx with rfl | hr
          · rw [ho]
            intro hc
            injection hc with hc2
            exact hp (congrArg Prod.fst hc2)
          · exact h x hr w
        · intro h x hx w
          exact h x (List.mem_cons_of_mem _ hx) w

theorem inMyNames_nil (x : Option String) : inMyNames [] x = false := by
  cases x <;> rfl

theorem opponentOf_nil (g : GameRow) : opponentOf [] g = none := by
  simp [opponentOf, inMyNames_nil]

theorem opponentOf_some_elim {my : List String} {g : GameRow} {o : String} {w : Bool}
    (h : opponentOf my g = some (o, w)) :
    inMyNames my g.data.winner_name ≠ inMyNames my g.data.loser_name
    ∧ (w = true →
        inMyNames my g.data.winner_name = true ∧ g.data.loser_name = some o)
    ∧ (w = false →
        inMyNames my g.data.loser_name = true ∧ g.data.winner_name = some o) := by
  unfold opponentOf at h
  split_ifs at h with h1 h2
  · rcases Option.map_eq_some'.mp h with ⟨l, hl, he⟩
    injection he with he1 he2
    subst he1
    rcases Bool.and_eq_true .. |>.mp h1 with ⟨h11, h13⟩
    rcases Bool.and_eq_true .. |>.mp h11 with ⟨h1w, _⟩
    have hlf : inMyNames my g.data.loser_name = false := by
      cases hv : inMyNames my g.data.loser_name
      · rfl
      · rw [hv] at h13; cases h13
    refine ⟨(by rw [h1w, hlf]; exact fun hc => by cases hc), (fun _ => ⟨h1w, hl⟩),
            (fun hw => ?_)⟩
    rw [← he2] at hw
    cases hw
  · rcases Option.map_eq_some'.mp h with ⟨l, hl, he⟩
    injection he with he1 he2
    subst he1
    rcases Bool.and_eq_true .. |>.mp h2 with ⟨h21, h23⟩
    rcases Bool.and_eq_true .. |>.mp h21 with ⟨h2l, _⟩
    have hwf : inMyNames my g.data.winner_name = false := by
      cases hv : inMyNames my g.data.winner_name
      · rfl
      · rw [hv] at h23; cases h23
    refine ⟨(by rw [h2l, hwf]; exact fun hc => by cases hc), (fun hw => ?_),
            (fun _ => ⟨h2l, hl⟩)⟩
    rw [← he2] at hw
    cases hw

/-- Claim C7: `allOpponentSummaries` aggregates exactly the games in which
one side's name is in the local-user set and the other is not (the
per-game opponent decision implies the two membership flags differ);
per-opponent wins and losses count the games the local side won or lost
against that opponent; `lastPlayed` is the played-at of the opponent's
first occurrence in the descending-time scan; the result is sorted by
opponent name ascending; and an opponent appears exactly when some game
contributes to it. -/
theorem c7_all_opponent_summaries (s : DBState) :
    List.Sorted (fun e1 e2 : OppSummary => e1.opponent ≤ e2.opponent) (getAllOpponents s)
    ∧ (∀ e ∈ getAllOpponents s,
        e.wins = s.games.countP
            (fun g => decide (opponentOf (getMyNames s) g = some (e.opponent, true)))
        ∧ e.losses = s.games.countP
            (fun g => decide (opponentOf (getMyNames s) g = some (e.opponent, false)))
        ∧ e.total = e.wins + e.losses
        ∧ ∃ g0, (sortGamesDesc s.games).find? (isOppRow (getMyNames s) e.opponent) = some g0
            ∧ e.last_played = g0.data.played_at)
    ∧ (∀ n, (∃ e ∈ getAllOpponents s, e.opponent = n) ↔
          ∃ g ∈ s.games, ∃ w, opponentOf (getMyNames s) g = some (n, w))
    ∧ (∀ g o w, opponentOf (getMyNames s) g = some (o, w) →
        inMyNames (getMyNames s) g.data.winner_name
            ≠ inMyNames (getMyNames s) g.data.loser_name
        ∧ (w = true → inMyNames (getMyNames s) g.data.winner_name = true
            ∧ g.data.loser_name = some o)
        ∧ (w = false → inMyNames (getMyNames s) g.data.loser_name = true
            ∧ g.data.winner_name = some o)) := by
  by_cases hmy : (getMyNames s).isEmpty = true
  · have h0 : getAllOpponents s = [] := by
      unfold getAllOpponents
      rw [if_pos hmy]
    have hnil : getMyNames s = [] := List.isEmpty_iff.mp hmy
    refine ⟨(by rw [h0]; exact List.sorted_nil), (by rw [h0]; intro e he; cases he), ?_,
            (fun g o w h => opponentOf_some_elim h)⟩
    intro n
    rw [h0]
    constructor
    · rintro ⟨e, he, _⟩; cases he
    · rintro ⟨g, _, w, hw⟩
      rw [hnil, opponentOf_nil] at hw
      cases hw
  · have h0 : getAllOpponents s =
        (List.insertionSort pairLe (foldStats (getMyNames s) [] (sortGamesDesc s.games))).map
          (fun p => ⟨p.1, p.2.wins, p.2.losses, p.2.wins + p.2.losses, p.2.last_played⟩) := by
      unfold getAllOpponents
      rw [if_neg hmy]
    have hperm : (List.insertionSort pairLe
        (foldStats (getMyNames s) [] (sortGamesDesc s.games))).Perm
        (foldStats (getMyNames s) [] (sortGamesDesc s.games)) :=
      List.perm_insertionSort pairLe _
    have hnd : ((foldStats (getMyNames s) [] (sortGamesDesc s.games)).map Prod.fst).Nodup :=
      foldStats_keys_nodup _ _ [] (by simp)
    have hlook : ∀ k, lookupStat (foldStats (getMyNames s) [] (sortGamesDesc s.games)) k =
        if occsOf (getMyNames s) k (sortGamesDesc s.games) = [] then none
        else some (statOfOccs (occsOf (getMyNames s) k (sortGamesDesc s.games))) := by
      intro k
      rw [lookupStat_foldStats]
      rw [show lookupStat [] k = none from rfl, applyOccs_none_spec]
    have hgperm : (sortGamesDesc s.games).Perm s.games := List.perm_insertionSort gameDesc _
    refine ⟨?_, ?_, ?_, fun g o w h => opponentOf_some_elim h⟩
    · rw [h0]
      exact List.Pairwise.map _ (fun a b hab => hab)
        (List.sorted_insertionSort pairLe (foldStats (getMyNames s) [] (sortGamesDesc s.games)))
    · rw [h0]
      intro e he
      rcases List.mem_map.mp he with ⟨⟨k, st⟩, hmem, rfl⟩
      have hmem2 : (k, st) ∈ foldStats (getMyNames s) [] (sortGamesDesc s.games) :=
        hperm.mem_iff.mp hmem
      have hl := lookupStat_of_nodup_mem hnd hmem2
      rw [hlook k] at hl
      by_cases hocc : occsOf (getMyNames s) k (sortGamesDesc s.games) = []
      · rw [if_pos hocc] at hl; cases hl
      · rw [if_neg hocc] at hl
        injection hl with hl
        refine ⟨?_, ?_, rfl, ?_⟩
        · show st.wins = _
          rw [← hl]
          show (occsOf (getMyNames s) k (sortGamesDesc s.games)).countP _ = _
          rw [occsOf_countP_true]
          exact hgperm.countP_eq _
        · show st.losses = _
          rw [← hl]
          show (occsOf (getMyNames s) k (sortGamesDesc s.games)).countP _ = _
          rw [occsOf_countP_false]
          exact hgperm.countP_eq _
        · show ∃ g0, _ ∧ st.last_played = g0.data.played_at
          rw [← hl]
          show ∃ g0, _ ∧ firstSome ((occsOf (getMyNames s) k (sortGamesDesc s.games)).map
            Prod.snd) = g0.data.played_at
          have hfne : (sortGamesDesc s.games).filter (isOppRow (getMyNames s) k) ≠ [] := by
            intro hf
            apply hocc
            have hms := occsOf_map_snd (getMyNames s) k (sortGamesDesc s.games)
            rw [hf] at hms
            simp only [List.map_nil] at hms
            exact List.map_eq_nil_iff.mp hms
          rcases List.exists_cons_of_ne_nil hfne with ⟨g0, rest, hcons⟩
          refine ⟨g0, ?_, ?_⟩
          · rw [← List.filter_head?, hcons]
            rfl
          · rw [occsOf_map_snd]
            have hsf : List.Sorted gameDesc
                ((sortGamesDesc s.games).filter (isOppRow (getMyNames s) k)) :=
              (List.sorted_insertionSort gameDesc s.games).filter _
            exact firstSome_head_of_sorted _ hsf g0 rest hcons
    · intro n
      rw [h0]
      constructor
      · rintro ⟨e, he, hn⟩
        rcases List.mem_map.mp he with ⟨⟨k, st⟩, hmem, rfl⟩
        have hkn : k = n := hn
        subst hkn
        have hmem2 : (k, st) ∈ foldStats (getMyNames s) [] (sortGamesDesc s.games) :=
          hperm.mem_iff.mp hmem
        have hl := lookupStat_of_nodup_mem hnd hmem2
        rw [hlook k] at hl
        by_cases hocc : occsOf (getMyNames s) k (sortGamesDesc s.games) = []
        · rw [if_pos hocc] at hl; cases hl
        · have hne := (not_iff_not.mpr
            (occsOf_eq_nil_iff (getMyNames s) k (sortGamesDesc s.games))).mp hocc
          push_neg at hne
          rcases hne with ⟨g, hg, w, hw⟩
          exact ⟨g, hgperm.mem_iff.mp hg, w, hw⟩
      · rintro ⟨g, hg, w, hw⟩
        have hocc : occsOf (getMyNames s) n (sortGamesDesc s.games) ≠ [] := by
          intro hocc0
          rw [occsOf_eq_nil_iff] at hocc0
          exact hocc0 g (hgperm.mem_iff.mpr hg) w hw
        have hl := hlook n
        rw [if_neg hocc] at hl
        have hsome : (lookupStat (foldStats (getMyNames s) []
            (sortGamesDesc s.games)) n).isSome = true := by
          rw [hl]; rfl
        have hkeys := (lookupStat_isSome_iff _ n).mp hsome
        rcases List.mem_map.mp hkeys with ⟨⟨k, st⟩, hmem, hk⟩
        refine ⟨⟨k, st.wins, st.losses, st.wins + st.losses, st.last_played⟩, ?_, hk⟩
        exact List.mem_map.mpr ⟨(k, st), hperm.mem_iff.mpr hmem, rfl⟩


end StarRecord
